import Mathlib

/-!
Verification development for the `mitre-layer-gen` repository
(`scripts/generate_layers.py` and `scripts/network_layer.py`).

Both scripts scan a tree of YAML detection-rule files, extract MITRE ATT&CK
technique IDs and severity labels from each file, aggregate them into
per-technique summaries (max score, first-max severity, count, up to 5
example locations) and emit a Navigator layer artifact.

The embedding below follows the Python source:
* Python strings are `String` (lists of characters); `str.lower`, `str.upper`,
  `str.strip`, `str.replace` are modelled character-wise on `String.data`.
* YAML values reachable by the scripts are `YVal` (a string, a list of
  values, or anything else); a parsed YAML mapping is an association list
  `YDict` with `List.lookup` playing `dict.get` (dict keys are unique).
* `re.findall` for the pattern `\bT\d{4}(?:\.\d{3})?\b` (IGNORECASE) is the
  fuel-indexed scanner `scanTechs` (fuel = length of the text, one unit per
  scanned position, so the fuel never runs out); it implements the regex
  engine's left-to-right non-overlapping scan, word-boundary checks and the
  backtracking of the optional `.ddd` group.
* `os.walk` runs over an inductive directory tree `FSTree`; the collectors
  are fuel-indexed by `sizeOf` of the tree, which strictly exceeds its
  height, so the fuel never runs out (`glCollectF_fuel_irrel` /
  `nlCollectF_fuel_irrel` prove the cutoff is never hit).
* `defaultdict` accumulators are total functions out of `String` together
  with the list `keys` of keys that were actually touched (= `counts.keys()`).
* File I/O is factored out: `main` receives the parse result
  (`Option YDict`, with `none` for a parse failure or a non-mapping result,
  exactly what `read_yaml` returns) and the raw text of each enumerated file
  through an oracle.
-/

/-- A YAML value as the scripts observe it: a string, a list of values, or
anything else (numbers, mappings, null, ...), which both scripts treat
uniformly via failing `isinstance` checks. -/
inductive YVal where
  | str (s : String)
  | list (xs : List YVal)
  | other
deriving Repr

/-- A parsed YAML mapping: association list with unique keys,
`List.lookup` = `dict.get`. -/
def YDict := List (String × YVal)

/-- `str.lower()` (ASCII, as used by the scripts' severity labels and
platform names). -/
def lowerStr (s : String) : String := String.mk (s.data.map Char.toLower)

/-- `str.upper()`. -/
def upperStr (s : String) : String := String.mk (s.data.map Char.toUpper)

/-- `str.strip()`: drop leading and trailing whitespace. -/
def stripStr (s : String) : String :=
  String.mk (((s.data.dropWhile Char.isWhitespace).reverse.dropWhile Char.isWhitespace).reverse)

/-- `fn.lower().endswith((".yml", ".yaml"))`. -/
def isYamlName (fn : String) : Bool :=
  List.isSuffixOf ".yml".data (lowerStr fn).data ||
  List.isSuffixOf ".yaml".data (lowerStr fn).data

/-- Word character for the regex word boundary: `[A-Za-z0-9_]`. -/
def isWordChar (c : Char) : Bool := c.isAlphanum || c == '_'

/-- Take exactly `n` decimal digits off the front of the text (`\d{n}`). -/
def takeDigits : Nat → List Char → Option (List Char × List Char)
  | 0, s => some ([], s)
  | _ + 1, [] => none
  | n + 1, c :: s =>
      if c.isDigit then
        match takeDigits n s with
        | some (ds, r) => some (c :: ds, r)
        | none => none
      else none

/-- The `\b` after a match: end of text, or next character is not a word
character. -/
def boundaryOk : List Char → Bool
  | [] => true
  | c :: _ => !isWordChar c

/-- Attempt to match `T\d{4}(?:\.\d{3})?\b` (IGNORECASE) at the head of the
text, including the regex engine's backtracking: if the optional `.ddd`
group matches but the trailing boundary fails, retry without the group.
Returns the matched characters. -/
def tryTech : List Char → Option (List Char)
  | [] => none
  | c :: s =>
      if c == 'T' || c == 't' then
        match takeDigits 4 s with
        | some (d4, r1) =>
            match r1 with
            | '.' :: r2 =>
                (match takeDigits 3 r2 with
                 | some (d3, r3) =>
                     if boundaryOk r3 then some (c :: d4 ++ '.' :: d3)
                     else if boundaryOk r1 then some (c :: d4) else none
                 | none => if boundaryOk r1 then some (c :: d4) else none)
            | _ => if boundaryOk r1 then some (c :: d4) else none
        | none => none
      else none

/-- `re.findall` scan: left to right, a match may start only at a word
boundary (`prev` is the previous character, `none` at the start of the
text), and scanning resumes right after each match (non-overlapping).
Fuel decreases by one per position while each step consumes at least one
character, so fuel = length of the text never runs out. -/
def scanTechs : Nat → Option Char → List Char → List (List Char)
  | 0, _, _ => []
  | _ + 1, _, [] => []
  | fuel + 1, prev, c :: s =>
      let atBoundary := match prev with
        | none => true
        | some p => !isWordChar p
      if atBoundary then
        match tryTech (c :: s) with
        | some m => m :: scanTechs fuel (some (m.getLastD c)) ((c :: s).drop m.length)
        | none => scanTechs fuel (some c) s
      else scanTechs fuel (some c) s

/-- `TECHNIQUE_RE.findall(s)` for `TECHNIQUE_RE = \bT\d{4}(?:\.\d{3})?\b`
with `re.IGNORECASE`. -/
def findall (s : String) : List String :=
  (scanTechs s.data.length none s.data).map String.mk

/-- Python's `<` on strings, on the underlying character lists: strict
lexicographic comparison by code point. -/
def ltChars : List Char → List Char → Bool
  | [], [] => false
  | [], _ :: _ => true
  | _ :: _, [] => false
  | a :: as, b :: bs => if a = b then ltChars as bs else decide (a < b)

/-- Python's `<=` on strings, on the underlying character lists. -/
def leChars : List Char → List Char → Bool
  | [], _ => true
  | _ :: _, [] => false
  | a :: as, b :: bs => if a = b then leChars as bs else decide (a < b)

/-- Python's `<=` on strings (the comparison `sorted` uses). -/
def pyLe (a b : String) : Prop := leChars a.data b.data = true

/-- Python's `<` on strings. -/
def pyLt (a b : String) : Prop := ltChars a.data b.data = true

instance : DecidableRel pyLe := fun a b =>
  inferInstanceAs (Decidable (leChars a.data b.data = true))

instance : DecidableRel pyLt := fun a b =>
  inferInstanceAs (Decidable (ltChars a.data b.data = true))

/-- `leChars` is total. -/
theorem leChars_total : ∀ a b : List Char, leChars a b = true ∨ leChars b a = true
  | [], [] => Or.inl rfl
  | [], _ :: _ => Or.inl rfl
  | _ :: _, [] => Or.inr rfl
  | a :: as, b :: bs => by
      by_cases hab : a = b
      · subst hab
        simpa [leChars] using leChars_total as bs
      · rcases lt_or_gt_of_ne hab with h | h
        · exact Or.inl (by simp [leChars, hab, h])
        · exact Or.inr (by simp [leChars, Ne.symm hab, h])

/-- `leChars` is transitive. -/
theorem leChars_trans : ∀ a b c : List Char,
    leChars a b = true → leChars b c = true → leChars a c = true
  | [], _, c => fun _ _ => by cases c <;> simp [leChars]
  | _ :: _, [], _ => fun h _ => by simp [leChars] at h
  | _ :: _, _ :: _, [] => fun _ h => by simp [leChars] at h
  | a :: as, b :: bs, c :: cs => fun h1 h2 => by
      by_cases hab : a = b <;> by_cases hbc : b = c
      · subst hab; subst hbc
        simp only [leChars, if_pos rfl] at h1 h2 ⊢
        exact leChars_trans as bs cs h1 h2
      · subst hab
        simp only [leChars, if_neg hbc, decide_eq_true_eq] at h2 ⊢
        exact h2
      · subst hbc
        simp only [leChars, if_neg hab, decide_eq_true_eq] at h1 ⊢
        exact h1
      · simp only [leChars, if_neg hab, decide_eq_true_eq] at h1
        simp only [leChars, if_neg hbc, decide_eq_true_eq] at h2
        have hac : a < c := lt_trans h1 h2
        simp only [leChars, if_neg (ne_of_lt hac), decide_eq_true_eq]
        exact hac

instance : IsTotal String pyLe := ⟨fun a b => leChars_total a.data b.data⟩

instance : IsTrans String pyLe := ⟨fun a b c => leChars_trans a.data b.data c.data⟩

/-- A non-strict comparison between distinct strings is strict. -/
theorem pyLt_of_pyLe_ne : ∀ a b : List Char,
    leChars a b = true → a ≠ b → ltChars a b = true
  | [], [] => fun _ h => absurd rfl h
  | [], _ :: _ => fun _ _ => rfl
  | _ :: _, [] => by intro h; simp [leChars] at h
  | a :: as, b :: bs => by
      by_cases hab : a = b
      · subst hab
        intro h hne
        have : as ≠ bs := fun e => hne (by rw [e])
        simpa [ltChars] using pyLt_of_pyLe_ne as bs (by simpa [leChars] using h) this
      · intro h _
        simp [leChars, hab] at h
        simp [ltChars, hab, h]

/-- Python `sorted(set(xs))` on strings: deduplicate, then sort by the
code-point lexicographic order (Python string comparison). -/
def pySortedSet (xs : List String) : List String :=
  List.insertionSort pyLe xs.dedup

/-- Python truthiness of an `Optional[Dict]`: `None` and the empty mapping
are falsy (`if not d: ...` / `if d: ...` in the scripts). -/
def pyTruthy : Option YDict → Bool
  | none => false
  | some [] => false
  | some (_ :: _) => true

/-- `SEVERITY_KEYS = ["Severity", "severity"]` (both scripts). -/
def SEVERITY_KEYS : List String := ["Severity", "severity"]

/-- `get_first_str(d, keys)` (called `get_first_string` in
`network_layer.py`): the first key whose value is a string that is
non-empty after stripping; that stripped value is returned. -/
def get_first_str (d : YDict) : List String → Option String
  | [] => none
  | k :: ks =>
      match List.lookup k d with
      | some (YVal.str v) =>
          if stripStr v ≠ "" then some (stripStr v) else get_first_str d ks
      | _ => get_first_str d ks

/-- `get_severity(d)`: `"unknown"` for a falsy mapping or no usable severity
field, otherwise the first severity value lowercased (both scripts). -/
def get_severity (d : Option YDict) : String :=
  if pyTruthy d then
    match get_first_str (d.getD []) SEVERITY_KEYS with
    | some s => lowerStr s
    | none => "unknown"
  else "unknown"

/-- The raw technique matches extracted from a structured field value:
`TECHNIQUE_RE.findall` over a string value, over each string item of a list
value, and nothing for anything else (the `isinstance` checks of
`normalize_techniques`). -/
def structMatches : YVal → List String
  | YVal.str s => findall s
  | YVal.list xs =>
      (xs.filterMap (fun v => match v with
        | YVal.str s => some s
        | _ => none)).flatMap findall
  | YVal.other => []

/-- `normalize_techniques(value)`: uppercase every grammar match found in
the value, deduplicate, sort (both scripts). -/
def normalize_techniques (v : YVal) : List String :=
  pySortedSet ((structMatches v).map upperStr)

/-- `TECHNIQUE_KEYS = ["MitreTechniques"]`: the single recognized
technique-list field. -/
def TECHNIQUE_KEY : String := "MitreTechniques"

/-- `get_techniques(d, raw_text)`: prefer the structured field when the
mapping is truthy, the key is present and its normalization is non-empty;
otherwise fall back to scanning the whole raw text (both scripts). -/
def get_techniques (d : Option YDict) (raw : String) : List String :=
  let fallback := pySortedSet ((findall raw).map upperStr)
  match d with
  | some dd =>
      if pyTruthy (some dd) then
        match List.lookup TECHNIQUE_KEY dd with
        | some v =>
            let ts := normalize_techniques v
            if ts.isEmpty then fallback else ts
        | none => fallback
      else fallback
  | none => fallback

/-- The aggregation accumulators of `main` (both scripts): the four
`defaultdict`s (as total functions with their default values) plus the list
of technique IDs actually touched, i.e. the keys of `counts`, in insertion
order. -/
structure AggState where
  keys : List String
  maxScore : String → Nat
  maxSev : String → String
  counts : String → Nat
  examples : String → List String

/-- The empty accumulators: `defaultdict(int)`,
`defaultdict(lambda: "unknown")`, `defaultdict(int)`, `defaultdict(list)`. -/
def initState : AggState :=
  { keys := []
  , maxScore := fun _ => 0
  , maxSev := fun _ => "unknown"
  , counts := fun _ => 0
  , examples := fun _ => []
  }

/-- The body of `for tid in techs:` in `main` (both scripts): bump the
count, append the example label while fewer than 5 are recorded, and update
best score/severity only when this file's score is strictly greater. -/
def updateTid (score : Nat) (sev label : String) (st : AggState) (tid : String) : AggState :=
  { keys := if tid ∈ st.keys then st.keys else st.keys ++ [tid]
  , counts := fun t => if t = tid then st.counts t + 1 else st.counts t
  , examples := fun t =>
      if t = tid ∧ (st.examples tid).length < 5 then st.examples t ++ [label]
      else st.examples t
  , maxScore := fun t =>
      if t = tid ∧ st.maxScore tid < score then score else st.maxScore t
  , maxSev := fun t =>
      if t = tid ∧ st.maxScore tid < score then sev else st.maxSev t
  }

/-- One enumerated rule file as `main` consumes it: its path (components
relative to the scan root), the result of `read_yaml`'s structured parse
(`none` when parsing failed or produced a non-mapping) and the raw text. -/
structure FileInput where
  path : List String
  parsed : Option YDict
  raw : String

/-- `os.path.basename(os.path.dirname(path)) + "/" + os.path.basename(path)`:
the example label; for a file directly under the root the parent directory
is the root itself. -/
def labelOf (rootName : String) (p : List String) : String :=
  p.dropLast.getLastD rootName ++ "/" ++ p.getLastD ""

/-- The per-file step of `main`'s loop (both scripts), threading
`(accumulators, parsed_count, skipped_count)`: a file with no techniques is
skipped, otherwise its facts are folded into every technique it mentions. -/
def processFile (sevScore : String → Nat) (rootName : String)
    (acc : AggState × Nat × Nat) (f : FileInput) : AggState × Nat × Nat :=
  let sev := get_severity f.parsed
  let techs := get_techniques f.parsed f.raw
  if techs.isEmpty then (acc.1, acc.2.1, acc.2.2 + 1)
  else
    let score := sevScore sev
    let label := labelOf rootName f.path
    (techs.foldl (updateTid score sev label) acc.1, acc.2.1 + 1, acc.2.2)

/-- `main`'s aggregation loop over the enumerated files, starting from the
empty accumulators and zero parsed/skipped counters. -/
def aggregate (sevScore : String → Nat) (rootName : String)
    (files : List FileInput) : AggState × Nat × Nat :=
  files.foldl (processFile sevScore rootName) (initState, 0, 0)

/-- One element of the output `techniques` array: `techniqueID`, `score`,
`comment` and the two `metadata` entries (as name/value pairs). -/
structure TechEntry where
  techniqueID : String
  score : Nat
  comment : String
  metadata : List (String × String)
deriving DecidableEq, Repr

/-- The output artifact of `build_layer` (both scripts): fixed presentation
fields plus the per-technique entries. -/
structure Layer where
  name : String
  domain : String
  description : String
  gradientMinValue : Nat
  gradientMaxValue : Nat
  layout : String
  hideDisabled : Bool
  techniques : List TechEntry
deriving DecidableEq, Repr

/-- The entry built for one technique ID from the accumulators: the
`technique_info` record of `main` merged with the entry construction of
`build_layer` (the dict is a pass-through between the two). -/
def entryOf (st : AggState) (tid : String) : TechEntry :=
  { techniqueID := tid
  , score := st.maxScore tid
  , comment := "detections=" ++ toString (st.counts tid) ++ "; max_sev=" ++
      st.maxSev tid ++ "; examples=" ++ String.intercalate ", " (st.examples tid)
  , metadata :=
      [ ("detections_count", toString (st.counts tid))
      , ("max_severity", st.maxSev tid) ]
  }

/-- `build_layer(layer_name, technique_info)` (both scripts; they differ
only in the constant `description` text): entries for all touched technique
IDs, sorted ascending by ID, wrapped in the fixed artifact fields. -/
def build_layer (layer_name descr : String) (st : AggState) : Layer :=
  { name := layer_name
  , domain := "enterprise-attack"
  , description := descr
  , gradientMinValue := 0
  , gradientMaxValue := 100
  , layout := "side"
  , hideDisabled := false
  , techniques := (List.insertionSort pyLe st.keys).map (entryOf st)
  }

/-- The shared shape of `main`: enumerate (the file list is passed in,
already sorted), fail with the script's fatal message when it is empty,
otherwise aggregate and build; the artifact is written only in the
successful case. -/
def mainCore (sevScore : String → Nat) (errMsg descr rootName layer_name : String)
    (files : List FileInput) : Except String Layer :=
  if files.isEmpty then Except.error errMsg
  else Except.ok (build_layer layer_name descr (aggregate sevScore rootName files).1)

mutual
/-- A directory tree as `os.walk` traverses it: a directory name, the plain
files directly inside, and the subdirectories (as an `FSForest`, the
mutually inductive spelling of a list of subtrees). -/
inductive FSTree where
  | dir (name : String) (files : List String) (subdirs : FSForest)
inductive FSForest where
  | nil
  | cons (t : FSTree) (ts : FSForest)
end

/-- The directory name of the root node of a tree. -/
def FSTree.dirName : FSTree → String
  | FSTree.dir n _ _ => n

/-- Membership of a subtree in a forest. -/
def FSForest.Mem (t : FSTree) : FSForest → Prop
  | FSForest.nil => False
  | FSForest.cons t' ts => t = t' ∨ FSForest.Mem t ts

/-- `EXCLUDE_DIRS` (identical in both scripts): directory names pruned from
the walk via `dirnames[:] = [d for d in dirnames if d not in EXCLUDE_DIRS]`. -/
def EXCLUDE_DIRS : List String :=
  [ ".git", ".github", ".codebuild", ".cursor", ".hooks", ".hooks_scripts"
  , "__pycache__", ".venv", "venv", "node_modules", "dist", "build"
  , "docs", "infra", "templates", "tests"
  , "global_helpers", "procedures", "schemas", "signals", "watchdogs" ]

namespace GenL

/-- `SEVERITY_TO_SCORE` of `generate_layers.py`: note the capitalized keys,
exactly as in the source. -/
def SEVERITY_TO_SCORE : List (String × Nat) :=
  [("Sev0", 100), ("Sev1", 90), ("Sev2", 70), ("Sev3", 40), ("Sev4", 20)]

/-- `severity_score(sev)` of `generate_layers.py`:
`SEVERITY_TO_SCORE.get(sev.lower(), 50)`. -/
def severity_score (sev : String) : Nat :=
  (List.lookup (lowerStr sev) SEVERITY_TO_SCORE).getD 50

mutual
/-- The walk of `iter_yaml_files` of `generate_layers.py` over an `FSTree`:
collect the YAML-named files of every directory reachable without entering
an excluded directory, as component paths relative to the root (`comps` is
the component path of the directory being visited). -/
def glCollect : List String → FSTree → List (List String)
  | comps, FSTree.dir _ files subdirs =>
      (files.filter isYamlName).map (fun f => comps ++ [f]) ++
      glCollectF comps subdirs
/-- The walk of `generate_layers.py` over the subdirectories of a
directory. -/
def glCollectF : List String → FSForest → List (List String)
  | _, FSForest.nil => []
  | comps, FSForest.cons d ds =>
      (if d.dirName ∈ EXCLUDE_DIRS then []
       else glCollect (comps ++ [d.dirName]) d) ++
      glCollectF comps ds
end

/-- `iter_yaml_files(root)` of `generate_layers.py`: the collected paths,
sorted by the joined path string (`sorted(out)` over `/`-joined paths). -/
def iter_yaml_files (t : FSTree) : List (List String) :=
  List.insertionSort (fun a b => pyLe (String.intercalate "/" a) (String.intercalate "/" b))
    (glCollect [] t)

/-- `main(repo_root, out_path, layer_name)` of `generate_layers.py`, with
file reading factored into `readF` (path ↦ `read_yaml` result):
enumerate, fail fatally on an empty enumeration, otherwise aggregate with
`severity_score` and build the layer. `rootName` is the basename of the
repo root (used for labels of files directly under the root). -/
def main (rootName layer_name : String) (t : FSTree)
    (readF : List String → Option YDict × String) : Except String Layer :=
  mainCore severity_score
    ("No .yaml/.yml files found under: " ++ rootName)
    "Auto-generated from detection YAML files in repo (technique + severity)."
    rootName layer_name
    ((iter_yaml_files t).map (fun p => FileInput.mk p (readF p).1 (readF p).2))

end GenL

namespace NetL

/-- `SEVERITY_TO_SCORE` of `network_layer.py`: lowercase keys. -/
def SEVERITY_TO_SCORE : List (String × Nat) :=
  [("sev0", 100), ("sev1", 90), ("sev2", 70), ("sev3", 40), ("sev4", 20)]

/-- `severity_to_score(severity)` of `network_layer.py`:
`SEVERITY_TO_SCORE.get(severity.lower(), 50)`. -/
def severity_to_score (severity : String) : Nat :=
  (List.lookup (lowerStr severity) SEVERITY_TO_SCORE).getD 50

/-- `NETWORK_PLATFORMS` of `network_layer.py`. -/
def NETWORK_PLATFORMS : List String := ["Cloudflare", "Netcraft", "Datadog"]

/-- The normalization `parts[0].lower().replace("_", "").replace(" ", "")`
applied to the first segment of the relative path. -/
def normalizePlatform (s : String) : String :=
  String.mk (((s.data.map Char.toLower).filter (fun c => c ≠ '_')).filter (fun c => c ≠ ' '))

/-- `allowed = {p.lower() for p in NETWORK_PLATFORMS}`. -/
def allowedPlatforms : List String := NETWORK_PLATFORMS.map lowerStr

mutual
/-- The walk of `iter_yaml_files` of `network_layer.py` over an `FSTree`.
`comps` is the component path of the current directory relative to the
root, so `os.path.relpath(dirpath, root).split(os.sep)` is `["."]` at the
root and `comps` below it; the platform check on its first element gates
only the collection of this directory's files (the `continue` skips to the
next `os.walk` entry), while descent is limited only by `EXCLUDE_DIRS`
(the `dirnames` pruning happens before the check). -/
def nlCollect : List String → FSTree → List (List String)
  | comps, FSTree.dir _ files subdirs =>
      (if normalizePlatform (comps.headD ".") ∈ allowedPlatforms
       then (files.filter isYamlName).map (fun f => comps ++ [f])
       else []) ++
      nlCollectF comps subdirs
/-- The walk of `network_layer.py` over the subdirectories of a
directory. -/
def nlCollectF : List String → FSForest → List (List String)
  | _, FSForest.nil => []
  | comps, FSForest.cons d ds =>
      (if d.dirName ∈ EXCLUDE_DIRS then []
       else nlCollect (comps ++ [d.dirName]) d) ++
      nlCollectF comps ds
end

/-- `iter_yaml_files(root)` of `network_layer.py`: platform-restricted
collection, sorted by the joined path string. -/
def iter_yaml_files (t : FSTree) : List (List String) :=
  List.insertionSort (fun a b => pyLe (String.intercalate "/" a) (String.intercalate "/" b))
    (nlCollect [] t)

/-- `main(repo_root, out_path, layer_name)` of `network_layer.py`, with file
reading factored into `readF`. -/
def main (rootName layer_name : String) (t : FSTree)
    (readF : List String → Option YDict × String) : Except String Layer :=
  mainCore severity_to_score
    "No Network detection YAML files found."
    "Auto-generated network-only ATT&CK coverage from Rippling detections."
    rootName layer_name
    ((iter_yaml_files t).map (fun p => FileInput.mk p (readF p).1 (readF p).2))

end NetL

/-!
## Properties of the shared extraction helpers
-/

/-- `pySortedSet` preserves membership: it is `sorted(set(xs))`. -/
theorem mem_pySortedSet {x : String} {xs : List String} :
    x ∈ pySortedSet xs ↔ x ∈ xs := by
  unfold pySortedSet
  rw [(List.perm_insertionSort pyLe xs.dedup).mem_iff]
  exact List.mem_dedup

/-- `pySortedSet` has no duplicates. -/
theorem nodup_pySortedSet (xs : List String) : (pySortedSet xs).Nodup :=
  ((List.perm_insertionSort pyLe xs.dedup).nodup_iff).2 (List.nodup_dedup xs)

/-- `pySortedSet` is sorted for Python's string comparison. -/
theorem sorted_pySortedSet (xs : List String) : List.Sorted pyLe (pySortedSet xs) :=
  List.sorted_insertionSort pyLe xs.dedup

/-- `pySortedSet` is strictly ascending for Python's string comparison. -/
theorem pairwise_lt_pySortedSet (xs : List String) :
    List.Pairwise pyLt (pySortedSet xs) := by
  have hs : List.Pairwise pyLe (pySortedSet xs) := sorted_pySortedSet xs
  have hn : List.Pairwise (fun a b : String => a ≠ b) (pySortedSet xs) :=
    nodup_pySortedSet xs
  refine (hs.and hn).imp ?_
  rintro a b ⟨hle, hne⟩
  exact pyLt_of_pyLe_ne a.data b.data hle (fun e => hne (congrArg String.mk e))

/-- Every result of `get_techniques` is a `pySortedSet` of uppercased
matches: of the structured field's matches when the structured tier is
used, of the raw-text matches otherwise. -/
theorem get_techniques_cases (d : Option YDict) (raw : String) :
    (∃ dd v, d = some dd ∧ pyTruthy (some dd) = true ∧
        List.lookup TECHNIQUE_KEY dd = some v ∧
        normalize_techniques v ≠ [] ∧
        get_techniques d raw = pySortedSet ((structMatches v).map upperStr)) ∨
    get_techniques d raw = pySortedSet ((findall raw).map upperStr) := by
  cases d with
  | none => exact Or.inr rfl
  | some dd =>
    by_cases ht : pyTruthy (some dd) = true
    · cases hl : List.lookup TECHNIQUE_KEY dd with
      | none =>
        refine Or.inr ?_
        simp [get_techniques, ht, hl]
      | some v =>
        by_cases he : (normalize_techniques v).isEmpty = true
        · refine Or.inr ?_
          simp [get_techniques, ht, hl, he]
        · have hne : normalize_techniques v ≠ [] := fun h => he (by rw [h]; rfl)
          refine Or.inl ⟨dd, v, rfl, ht, hl, hne, ?_⟩
          simp only [get_techniques, ht, if_true, hl]
          rw [if_neg he, normalize_techniques]
    · refine Or.inr ?_
      simp [get_techniques, ht]

/-- `get_techniques` never returns duplicates. -/
theorem nodup_get_techniques (d : Option YDict) (raw : String) :
    (get_techniques d raw).Nodup := by
  rcases get_techniques_cases d raw with ⟨dd, v, _, _, _, _, he⟩ | he <;>
    rw [he] <;> exact nodup_pySortedSet _

/-!
## The aggregation, viewed one technique ID at a time
-/

/-- The four accumulator entries for one technique ID. -/
structure TidView where
  score : Nat
  sev : String
  count : Nat
  examples : List String
deriving DecidableEq, Repr

/-- Read the accumulators at one technique ID. -/
def stView (st : AggState) (tid : String) : TidView :=
  { score := st.maxScore tid
  , sev := st.maxSev tid
  , count := st.counts tid
  , examples := st.examples tid }

/-- The effect of one contributing file on one technique ID's view:
count up, append the label under the cap of 5, best score/severity replaced
only on strict improvement. -/
def stepView (score : Nat) (sev label : String) (v : TidView) : TidView :=
  { score := if v.score < score then score else v.score
  , sev := if v.score < score then sev else v.sev
  , count := v.count + 1
  , examples := if v.examples.length < 5 then v.examples ++ [label] else v.examples }

/-- `updateTid` at a different ID changes nothing in the view. -/
theorem stView_updateTid_ne (score : Nat) (sev label : String) (st : AggState)
    {tid t : String} (h : t ≠ tid) :
    stView (updateTid score sev label st tid) t = stView st t := by
  simp [stView, updateTid, h]

/-- `updateTid` at the same ID steps the view. -/
theorem stView_updateTid_eq (score : Nat) (sev label : String) (st : AggState)
    (tid : String) :
    stView (updateTid score sev label st tid) tid = stepView score sev label (stView st tid) := by
  simp [stView, updateTid, stepView]

/-- `updateTid` key membership: the updated ID joins the touched keys. -/
theorem mem_keys_updateTid (score : Nat) (sev label : String) (st : AggState)
    (tid t : String) :
    (t ∈ (updateTid score sev label st tid).keys) ↔ t ∈ st.keys ∨ t = tid := by
  unfold updateTid
  by_cases h : tid ∈ st.keys
  · rw [if_pos h]
    constructor
    · exact Or.inl
    · rintro (ht | rfl)
      · exact ht
      · exact h
  · rw [if_neg h]
    simp

/-- Folding `updateTid` over a list of IDs not containing `t` leaves `t`'s
view unchanged. -/
theorem stView_foldl_not_mem (score : Nat) (sev label : String) :
    ∀ (techs : List String) (st : AggState) {t : String}, t ∉ techs →
      stView (techs.foldl (updateTid score sev label) st) t = stView st t := by
  intro techs
  induction techs with
  | nil => intro st t _; rfl
  | cons a rest ih =>
    intro st t ht
    rw [List.foldl_cons]
    rw [ih _ (fun hm => ht (List.mem_cons_of_mem a hm))]
    exact stView_updateTid_ne score sev label st (fun e => ht (e ▸ List.mem_cons_self a rest))

/-- Folding `updateTid` over a duplicate-free list of IDs containing `t`
steps `t`'s view exactly once. -/
theorem stView_foldl_mem (score : Nat) (sev label : String) :
    ∀ (techs : List String) (st : AggState) {t : String}, techs.Nodup → t ∈ techs →
      stView (techs.foldl (updateTid score sev label) st) t
        = stepView score sev label (stView st t) := by
  intro techs
  induction techs with
  | nil => intro st t _ ht; cases ht
  | cons a rest ih =>
    intro st t hnd ht
    rw [List.foldl_cons]
    rcases List.mem_cons.1 ht with rfl | hmem
    · have hnotin : t ∉ rest := (List.nodup_cons.1 hnd).1
      rw [stView_foldl_not_mem score sev label rest _ hnotin]
      exact stView_updateTid_eq score sev label st t
    · have hne : t ≠ a := fun e => (List.nodup_cons.1 hnd).1 (e ▸ hmem)
      rw [ih _ (List.nodup_cons.1 hnd).2 hmem]
      rw [stView_updateTid_ne score sev label st hne]

/-- Key membership after folding `updateTid` over a list of IDs. -/
theorem mem_keys_foldl (score : Nat) (sev label : String) :
    ∀ (techs : List String) (st : AggState) (t : String),
      (t ∈ (techs.foldl (updateTid score sev label) st).keys) ↔ t ∈ st.keys ∨ t ∈ techs := by
  intro techs
  induction techs with
  | nil => intro st t; simp
  | cons a rest ih =>
    intro st t
    rw [List.foldl_cons, ih, mem_keys_updateTid]
    constructor
    · rintro ((h | h) | h)
      · exact Or.inl h
      · exact Or.inr (h ▸ List.mem_cons_self _ _)
      · exact Or.inr (List.mem_cons_of_mem _ h)
    · rintro (h | h)
      · exact Or.inl (Or.inl h)
      · rcases List.mem_cons.1 h with rfl | h
        · exact Or.inl (Or.inr rfl)
        · exact Or.inr h

/-- The contributions of a file list to one technique ID, in processing
order: for every file whose extracted technique set contains the ID, the
triple (score from its severity, its severity, its example label). -/
def contribs (sevScore : String → Nat) (rootName : String)
    (files : List FileInput) (tid : String) : List (Nat × String × String) :=
  files.filterMap (fun f =>
    if tid ∈ get_techniques f.parsed f.raw then
      some (sevScore (get_severity f.parsed), get_severity f.parsed, labelOf rootName f.path)
    else none)

/-- A skipped file (no techniques) leaves the accumulators unchanged and
bumps the skipped counter. -/
theorem processFile_skip (sevScore : String → Nat) (rootName : String)
    (st : AggState) (pn kn : Nat) (f : FileInput)
    (hemp : (get_techniques f.parsed f.raw).isEmpty = true) :
    processFile sevScore rootName (st, pn, kn) f = (st, pn, kn + 1) := by
  unfold processFile
  rw [if_pos hemp]

/-- A contributing file folds `updateTid` over its technique set and bumps
the parsed counter. -/
theorem processFile_contrib (sevScore : String → Nat) (rootName : String)
    (st : AggState) (pn kn : Nat) (f : FileInput)
    (hemp : ¬(get_techniques f.parsed f.raw).isEmpty = true) :
    processFile sevScore rootName (st, pn, kn) f
      = ((get_techniques f.parsed f.raw).foldl
           (updateTid (sevScore (get_severity f.parsed)) (get_severity f.parsed)
             (labelOf rootName f.path)) st,
         pn + 1, kn) := by
  unfold processFile
  rw [if_neg hemp]

/-- The per-ID view of the whole aggregation loop is the fold of
`stepView` over that ID's contributions, from any starting state. -/
theorem stView_aggLoop (sevScore : String → Nat) (rootName : String) :
    ∀ (files : List FileInput) (st : AggState) (pn kn : Nat) (tid : String),
      stView (files.foldl (processFile sevScore rootName) (st, pn, kn)).1 tid
        = (contribs sevScore rootName files tid).foldl
            (fun v c => stepView c.1 c.2.1 c.2.2 v) (stView st tid) := by
  intro files
  induction files with
  | nil => intro st pn kn tid; rfl
  | cons f rest ih =>
    intro st pn kn tid
    rw [List.foldl_cons]
    by_cases hemp : (get_techniques f.parsed f.raw).isEmpty = true
    · have hnm : tid ∉ get_techniques f.parsed f.raw := by
        rw [List.isEmpty_iff.1 hemp]
        exact List.not_mem_nil tid
      rw [processFile_skip sevScore rootName st pn kn f hemp, ih]
      unfold contribs
      rw [List.filterMap_cons_none (by rw [if_neg hnm])]
    · rw [processFile_contrib sevScore rootName st pn kn f hemp, ih]
      by_cases hm : tid ∈ get_techniques f.parsed f.raw
      · rw [stView_foldl_mem _ _ _ _ _ (nodup_get_techniques f.parsed f.raw) hm]
        unfold contribs
        rw [List.filterMap_cons_some (by rw [if_pos hm])]
        rw [List.foldl_cons]
      · rw [stView_foldl_not_mem _ _ _ _ _ hm]
        unfold contribs
        rw [List.filterMap_cons_none (by rw [if_neg hm])]

/-- A technique ID is a key of the final accumulators iff it was a key
initially or some file contributes to it. -/
theorem mem_keys_aggLoop (sevScore : String → Nat) (rootName : String) :
    ∀ (files : List FileInput) (st : AggState) (pn kn : Nat) (tid : String),
      (tid ∈ (files.foldl (processFile sevScore rootName) (st, pn, kn)).1.keys)
        ↔ tid ∈ st.keys ∨ contribs sevScore rootName files tid ≠ [] := by
  intro files
  induction files with
  | nil =>
    intro st pn kn tid
    simp [contribs]
  | cons f rest ih =>
    intro st pn kn tid
    rw [List.foldl_cons]
    by_cases hemp : (get_techniques f.parsed f.raw).isEmpty = true
    · have hnm : tid ∉ get_techniques f.parsed f.raw := by
        rw [List.isEmpty_iff.1 hemp]
        exact List.not_mem_nil tid
      rw [processFile_skip sevScore rootName st pn kn f hemp, ih]
      unfold contribs
      rw [List.filterMap_cons_none (by rw [if_neg hnm])]
    · rw [processFile_contrib sevScore rootName st pn kn f hemp, ih, mem_keys_foldl]
      by_cases hm : tid ∈ get_techniques f.parsed f.raw
      · unfold contribs
        rw [List.filterMap_cons_some (by rw [if_pos hm])]
        constructor
        · rintro _
          exact Or.inr (List.cons_ne_nil _ _)
        · rintro _
          exact Or.inl (Or.inr hm)
      · unfold contribs
        rw [List.filterMap_cons_none (by rw [if_neg hm])]
        constructor
        · rintro ((h | h) | h)
          · exact Or.inl h
          · exact absurd h hm
          · exact Or.inr h
        · rintro (h | h)
          · exact Or.inl (Or.inl h)
          · exact Or.inr h

/-!
## Pure properties of the per-ID contribution fold
-/

/-- Folding the per-contribution step over a contribution list. -/
def stepFold (v : TidView) (cs : List (Nat × String × String)) : TidView :=
  cs.foldl (fun v c => stepView c.1 c.2.1 c.2.2 v) v

/-- The maximum score among a list of contributions (0 when empty). -/
def maxScoreOf (cs : List (Nat × String × String)) : Nat :=
  cs.foldr (fun c m => max c.1 m) 0

/-- Every contribution's score is bounded by the maximum. -/
theorem le_maxScoreOf : ∀ (cs : List (Nat × String × String)) (c : Nat × String × String),
    c ∈ cs → c.1 ≤ maxScoreOf cs := by
  intro cs
  induction cs with
  | nil => intro c hc; cases hc
  | cons a rest ih =>
    intro c hc
    rcases List.mem_cons.1 hc with rfl | hc
    · exact le_max_left _ _
    · exact le_trans (ih c hc) (le_max_right _ _)

/-- The maximum is zero or attained by some contribution. -/
theorem maxScoreOf_attained : ∀ (cs : List (Nat × String × String)),
    maxScoreOf cs = 0 ∨ ∃ c ∈ cs, c.1 = maxScoreOf cs := by
  intro cs
  induction cs with
  | nil => exact Or.inl rfl
  | cons a rest ih =>
    by_cases h : maxScoreOf rest ≤ a.1
    · refine Or.inr ⟨a, List.mem_cons_self _ _, ?_⟩
      show a.1 = max a.1 (maxScoreOf rest)
      omega
    · rcases ih with h0 | ⟨c, hc, he⟩
      · omega
      · refine Or.inr ⟨c, List.mem_cons_of_mem _ hc, ?_⟩
        show c.1 = max a.1 (maxScoreOf rest)
        omega

/-- Appending a contribution takes the max with its score. -/
theorem maxScoreOf_append (cs : List (Nat × String × String)) (c : Nat × String × String) :
    maxScoreOf (cs ++ [c]) = max (maxScoreOf cs) c.1 := by
  have key : ∀ (l : List (Nat × String × String)) (b : Nat),
      l.foldr (fun c m => max c.1 m) b = max (maxScoreOf l) b := by
    intro l
    induction l with
    | nil => intro b; simp [maxScoreOf]
    | cons a rest ih =>
      intro b
      show max a.1 (rest.foldr (fun c m => max c.1 m) b) = max (max a.1 (maxScoreOf rest)) b
      rw [ih]
      omega
  show (cs ++ [c]).foldr (fun c m => max c.1 m) 0 = _
  rw [List.foldr_append]
  show cs.foldr (fun c m => max c.1 m) (max c.1 0) = _
  rw [key]
  omega

/-- The score component of the fold is the running maximum. -/
theorem stepFold_score : ∀ (cs : List (Nat × String × String)) (v : TidView),
    (stepFold v cs).score = max v.score (maxScoreOf cs) := by
  intro cs
  induction cs with
  | nil => intro v; show v.score = max v.score 0; omega
  | cons c rest ih =>
    intro v
    show (stepFold (stepView c.1 c.2.1 c.2.2 v) rest).score = max v.score (max c.1 (maxScoreOf rest))
    rw [ih]
    have : (stepView c.1 c.2.1 c.2.2 v).score = max v.score c.1 := by
      show (if v.score < c.1 then c.1 else v.score) = max v.score c.1
      split <;> omega
    rw [this]
    omega

/-- The count component of the fold counts the contributions. -/
theorem stepFold_count : ∀ (cs : List (Nat × String × String)) (v : TidView),
    (stepFold v cs).count = v.count + cs.length := by
  intro cs
  induction cs with
  | nil => intro v; rfl
  | cons c rest ih =>
    intro v
    show (stepFold (stepView c.1 c.2.1 c.2.2 v) rest).count = v.count + (rest.length + 1)
    rw [ih]
    show v.count + 1 + rest.length = v.count + (rest.length + 1)
    omega

/-- The examples component of the fold appends the contribution labels up
to the cap of 5, never replacing recorded entries. -/
theorem stepFold_examples : ∀ (cs : List (Nat × String × String)) (v : TidView),
    (stepFold v cs).examples
      = v.examples ++ (cs.map (fun c => c.2.2)).take (5 - v.examples.length) := by
  intro cs
  induction cs with
  | nil => intro v; simp [stepFold]
  | cons c rest ih =>
    intro v
    show (stepFold (stepView c.1 c.2.1 c.2.2 v) rest).examples = _
    rw [ih]
    by_cases h : v.examples.length < 5
    · have hex : (stepView c.1 c.2.1 c.2.2 v).examples = v.examples ++ [c.2.2] := by
        show (if v.examples.length < 5 then v.examples ++ [c.2.2] else v.examples) = _
        rw [if_pos h]
      rw [hex]
      have hlen : (v.examples ++ [c.2.2]).length = v.examples.length + 1 := by simp
      rw [hlen]
      have hstep : 5 - v.examples.length = (5 - (v.examples.length + 1)) + 1 := by omega
      rw [List.append_assoc]
      rw [List.map_cons, hstep, List.take_succ_cons]
      rfl
    · have hex : (stepView c.1 c.2.1 c.2.2 v).examples = v.examples := by
        show (if v.examples.length < 5 then v.examples ++ [c.2.2] else v.examples) = _
        rw [if_neg h]
      rw [hex]
      have h0 : 5 - v.examples.length = 0 := by omega
      rw [h0]
      simp

/-- The initial per-ID view. -/
theorem stView_initState (tid : String) :
    stView initState tid = ⟨0, "unknown", 0, []⟩ := rfl

/-- The severity component of the fold from the initial view is the
severity of the first contribution attaining the maximum score
(first-seen-wins on ties), provided all contribution scores are positive. -/
theorem stepFold_sev (cs : List (Nat × String × String))
    (hpos : ∀ c ∈ cs, 0 < c.1) :
    (stepFold ⟨0, "unknown", 0, []⟩ cs).sev
      = ((cs.find? (fun c => c.1 == maxScoreOf cs)).map (fun c => c.2.1)).getD "unknown" := by
  induction cs using List.reverseRecOn with
  | nil => rfl
  | append_singleton cs c ih =>
    have hpos' : ∀ c' ∈ cs, 0 < c'.1 := fun c' hc' => hpos c' (List.mem_append_left _ hc')
    have hcpos : 0 < c.1 := hpos c (List.mem_append_right _ (List.mem_cons_self _ _))
    have hsplit : stepFold ⟨0, "unknown", 0, []⟩ (cs ++ [c])
        = stepView c.1 c.2.1 c.2.2 (stepFold ⟨0, "unknown", 0, []⟩ cs) := by
      show List.foldl _ _ (cs ++ [c]) = _
      rw [List.foldl_append]
      rfl
    have hscore : (stepFold ⟨0, "unknown", 0, []⟩ cs).score = maxScoreOf cs := by
      rw [stepFold_score]
      show max 0 _ = _
      omega
    rw [hsplit, maxScoreOf_append]
    by_cases hlt : (stepFold ⟨0, "unknown", 0, []⟩ cs).score < c.1
    · have hmax : max (maxScoreOf cs) c.1 = c.1 := by rw [hscore] at hlt; omega
      have hsev : (stepView c.1 c.2.1 c.2.2 (stepFold ⟨0, "unknown", 0, []⟩ cs)).sev = c.2.1 := by
        show (if (stepFold ⟨0, "unknown", 0, []⟩ cs).score < c.1 then c.2.1 else _) = _
        rw [if_pos hlt]
      rw [hsev, hmax]
      have hnone : cs.find? (fun c' => c'.1 == c.1) = none := by
        rw [List.find?_eq_none]
        intro x hx
        have : x.1 ≤ maxScoreOf cs := le_maxScoreOf cs x hx
        rw [hscore] at hlt
        simp only [beq_iff_eq]
        omega
      rw [List.find?_append, hnone]
      simp
    · have hle : c.1 ≤ maxScoreOf cs := by rw [hscore] at hlt; omega
      have hmax : max (maxScoreOf cs) c.1 = maxScoreOf cs := by omega
      have hsev : (stepView c.1 c.2.1 c.2.2 (stepFold ⟨0, "unknown", 0, []⟩ cs)).sev
          = (stepFold ⟨0, "unknown", 0, []⟩ cs).sev := by
        show (if (stepFold ⟨0, "unknown", 0, []⟩ cs).score < c.1 then c.2.1 else _) = _
        rw [if_neg hlt]
      rw [hsev, hmax, ih hpos']
      have hM : 0 < maxScoreOf cs := lt_of_lt_of_le hcpos hle
      rcases maxScoreOf_attained cs with h0 | ⟨x, hx, he⟩
      · omega
      · have hsome : (cs.find? (fun c' => c'.1 == maxScoreOf cs)).isSome := by
          rw [List.find?_isSome]
          exact ⟨x, hx, by simp [he]⟩
        obtain ⟨y, hy⟩ := Option.isSome_iff_exists.1 hsome
        rw [List.find?_append, hy]
        rfl

/-!
## Keys, score ranges and the built layer
-/

/-- `updateTid` keeps the touched-key list duplicate-free. -/
theorem nodup_keys_updateTid (score : Nat) (sev label : String) (st : AggState)
    (tid : String) (h : st.keys.Nodup) :
    (updateTid score sev label st tid).keys.Nodup := by
  unfold updateTid
  by_cases hm : tid ∈ st.keys
  · rw [if_pos hm]
    exact h
  · rw [if_neg hm]
    rw [List.nodup_append]
    exact ⟨h, List.nodup_singleton tid, by simpa [List.disjoint_singleton] using hm⟩

/-- Folding `updateTid` keeps the touched-key list duplicate-free. -/
theorem nodup_keys_foldl (score : Nat) (sev label : String) :
    ∀ (techs : List String) (st : AggState), st.keys.Nodup →
      (techs.foldl (updateTid score sev label) st).keys.Nodup := by
  intro techs
  induction techs with
  | nil => intro st h; exact h
  | cons a rest ih =>
    intro st h
    rw [List.foldl_cons]
    exact ih _ (nodup_keys_updateTid score sev label st a h)

/-- The aggregation loop keeps the touched-key list duplicate-free. -/
theorem nodup_keys_aggLoop (sevScore : String → Nat) (rootName : String) :
    ∀ (files : List FileInput) (st : AggState) (pn kn : Nat), st.keys.Nodup →
      (files.foldl (processFile sevScore rootName) (st, pn, kn)).1.keys.Nodup := by
  intro files
  induction files with
  | nil => intro st pn kn h; exact h
  | cons f rest ih =>
    intro st pn kn h
    rw [List.foldl_cons]
    by_cases hemp : (get_techniques f.parsed f.raw).isEmpty = true
    · rw [processFile_skip sevScore rootName st pn kn f hemp]
      exact ih _ _ _ h
    · rw [processFile_contrib sevScore rootName st pn kn f hemp]
      exact ih _ _ _ (nodup_keys_foldl _ _ _ _ _ h)

/-- The final accumulators have duplicate-free keys. -/
theorem nodup_keys_aggregate (sevScore : String → Nat) (rootName : String)
    (files : List FileInput) : (aggregate sevScore rootName files).1.keys.Nodup :=
  nodup_keys_aggLoop sevScore rootName files initState 0 0 List.nodup_nil

/-- The six scores any severity can produce. -/
def SCORES : List Nat := [20, 40, 50, 70, 90, 100]

/-- A `dict.get(k, d)` result is the default or one of the stored values. -/
theorem lookup_getD_mem (k : String) :
    ∀ (l : List (String × Nat)) (d : Nat),
      (List.lookup k l).getD d = d ∨ (List.lookup k l).getD d ∈ l.map (fun p => p.2) := by
  intro l
  induction l with
  | nil => intro d; exact Or.inl rfl
  | cons a rest ih =>
    intro d
    rw [List.lookup_cons]
    cases hb : (k == a.1)
    · rcases ih d with h1 | h1
      · exact Or.inl h1
      · exact Or.inr (List.mem_cons_of_mem _ h1)
    · exact Or.inr (List.mem_cons_self _ _)

/-- `severity_score` of `generate_layers.py` always lands in the six-score
range. -/
theorem genl_severity_score_mem (s : String) : GenL.severity_score s ∈ SCORES := by
  unfold GenL.severity_score
  rcases lookup_getD_mem (lowerStr s) GenL.SEVERITY_TO_SCORE 50 with h | h
  · rw [h]; decide
  · have he : GenL.SEVERITY_TO_SCORE.map (fun p => p.2) = [100, 90, 70, 40, 20] := rfl
    rw [he] at h
    simp only [List.mem_cons, List.not_mem_nil, or_false] at h
    rcases h with h | h | h | h | h <;> rw [h] <;> decide

/-- `severity_to_score` of `network_layer.py` always lands in the six-score
range. -/
theorem netl_severity_to_score_mem (s : String) : NetL.severity_to_score s ∈ SCORES := by
  unfold NetL.severity_to_score
  rcases lookup_getD_mem (lowerStr s) NetL.SEVERITY_TO_SCORE 50 with h | h
  · rw [h]; decide
  · have he : NetL.SEVERITY_TO_SCORE.map (fun p => p.2) = [100, 90, 70, 40, 20] := rfl
    rw [he] at h
    simp only [List.mem_cons, List.not_mem_nil, or_false] at h
    rcases h with h | h | h | h | h <;> rw [h] <;> decide

/-- Every reachable score is positive. -/
theorem pos_of_mem_SCORES : ∀ x ∈ SCORES, 0 < x := by decide

/-- The entries of a built layer are exactly the entries of the touched
technique IDs. -/
theorem mem_techniques_build_layer (layer_name descr : String) (st : AggState)
    (e : TechEntry) :
    e ∈ (build_layer layer_name descr st).techniques ↔ ∃ tid ∈ st.keys, e = entryOf st tid := by
  show e ∈ (List.insertionSort pyLe st.keys).map (entryOf st) ↔ _
  rw [List.mem_map]
  constructor
  · rintro ⟨tid, hm, rfl⟩
    exact ⟨tid, (List.perm_insertionSort pyLe st.keys).mem_iff.1 hm, rfl⟩
  · rintro ⟨tid, hm, rfl⟩
    exact ⟨tid, (List.perm_insertionSort pyLe st.keys).mem_iff.2 hm, rfl⟩

/-- The built technique array is strictly ascending in `techniqueID` as
soon as the key list is duplicate-free. -/
theorem pairwise_techniques_build_layer (layer_name descr : String) (st : AggState)
    (h : st.keys.Nodup) :
    List.Pairwise (fun a b : TechEntry => pyLt a.techniqueID b.techniqueID)
      (build_layer layer_name descr st).techniques := by
  show List.Pairwise _ ((List.insertionSort pyLe st.keys).map (entryOf st))
  rw [List.pairwise_map]
  have hs : List.Pairwise pyLe (List.insertionSort pyLe st.keys) :=
    List.sorted_insertionSort pyLe st.keys
  have hn : List.Pairwise (fun a b : String => a ≠ b) (List.insertionSort pyLe st.keys) :=
    ((List.perm_insertionSort pyLe st.keys).nodup_iff).2 h
  refine (hs.and hn).imp ?_
  rintro a b ⟨hle, hne⟩
  show pyLt (entryOf st a).techniqueID (entryOf st b).techniqueID
  exact pyLt_of_pyLe_ne a.data b.data hle (fun e => hne (congrArg String.mk e))

/-!
## The restricted enumerator's platform guarantee
-/

mutual
/-- Every path collected by the restricted walk extends the current
directory's path by at least one component, and its first component
normalizes into the platform allow-list. -/
theorem nlCollect_shape (t : FSTree) : ∀ (comps p : List String),
    p ∈ NetL.nlCollect comps t →
    (∃ q, q ≠ [] ∧ p = comps ++ q) ∧
      NetL.normalizePlatform (p.headD ".") ∈ NetL.allowedPlatforms := by
  cases t with
  | dir n files subdirs =>
    intro comps p hp
    rw [NetL.nlCollect] at hp
    rcases List.mem_append.1 hp with h | h
    · by_cases hcond : NetL.normalizePlatform (comps.headD ".") ∈ NetL.allowedPlatforms
      · rw [if_pos hcond] at h
        rcases List.mem_map.1 h with ⟨f, _, rfl⟩
        refine ⟨⟨[f], List.cons_ne_nil f [], rfl⟩, ?_⟩
        cases comps with
        | nil =>
          exact absurd hcond (by decide)
        | cons c cs =>
          simpa using hcond
      · rw [if_neg hcond] at h
        cases h
    · exact nlCollectF_shape subdirs comps p h

/-- Forest version of `nlCollect_shape`. -/
theorem nlCollectF_shape (ts : FSForest) : ∀ (comps p : List String),
    p ∈ NetL.nlCollectF comps ts →
    (∃ q, q ≠ [] ∧ p = comps ++ q) ∧
      NetL.normalizePlatform (p.headD ".") ∈ NetL.allowedPlatforms := by
  cases ts with
  | nil =>
    intro comps p hp
    rw [NetL.nlCollectF] at hp
    cases hp
  | cons d ds =>
    intro comps p hp
    rw [NetL.nlCollectF] at hp
    rcases List.mem_append.1 hp with h | h
    · by_cases hex : d.dirName ∈ EXCLUDE_DIRS
      · rw [if_pos hex] at h
        cases h
      · rw [if_neg hex] at h
        rcases nlCollect_shape d (comps ++ [d.dirName]) p h with ⟨⟨q, hq, rfl⟩, hhead⟩
        refine ⟨⟨d.dirName :: q, List.cons_ne_nil _ _, ?_⟩, hhead⟩
        rw [List.append_assoc]
        rfl
    · exact nlCollectF_shape ds comps p h
end

/-- Starting at the root (empty relative path), every collected path has a
first component that normalizes into the allow-list followed by at least
one further component: files directly in the root are never collected
because the root's relative path `"."` never normalizes into the
allow-list. -/
theorem nlCollect_root (t : FSTree) : ∀ p, p ∈ NetL.nlCollect [] t →
    ∃ a q, p = a :: q ∧ q ≠ [] ∧ NetL.normalizePlatform a ∈ NetL.allowedPlatforms := by
  cases t with
  | dir n files subdirs =>
    intro p hp
    rw [NetL.nlCollect] at hp
    rw [if_neg (by decide : ¬NetL.normalizePlatform (([] : List String).headD ".") ∈ NetL.allowedPlatforms)] at hp
    rcases List.mem_append.1 hp with h | h
    · cases h
    · exact nlCollectF_root subdirs p h
where
  nlCollectF_root (ts : FSForest) : ∀ p, p ∈ NetL.nlCollectF [] ts →
      ∃ a q, p = a :: q ∧ q ≠ [] ∧ NetL.normalizePlatform a ∈ NetL.allowedPlatforms := by
    cases ts with
    | nil =>
      intro p hp
      rw [NetL.nlCollectF] at hp
      cases hp
    | cons d ds =>
      intro p hp
      rw [NetL.nlCollectF] at hp
      rcases List.mem_append.1 hp with h | h
      · by_cases hex : d.dirName ∈ EXCLUDE_DIRS
        · rw [if_pos hex] at h
          cases h
        · rw [if_neg hex] at h
          rcases nlCollect_shape d [d.dirName] p h with ⟨⟨q, hq, rfl⟩, hhead⟩
          exact ⟨d.dirName, q, rfl, hq, by simpa using hhead⟩
      · exact nlCollectF_root ds p h

/-- Every example label recorded by the aggregation names an enumerated
file: labels enter the accumulators only from the file being processed. -/
theorem examples_from_files (sevScore : String → Nat) (rootName : String)
    (files : List FileInput) (tid lab : String)
    (h : lab ∈ (aggregate sevScore rootName files).1.examples tid) :
    ∃ f ∈ files, lab = labelOf rootName f.path := by
  have hv : (aggregate sevScore rootName files).1.examples tid
      = (stView (aggregate sevScore rootName files).1 tid).examples := rfl
  rw [hv] at h
  rw [show (aggregate sevScore rootName files) =
      files.foldl (processFile sevScore rootName) (initState, 0, 0) from rfl] at h
  rw [stView_aggLoop sevScore rootName files initState 0 0 tid] at h
  rw [show List.foldl (fun v c => stepView c.1 c.2.1 c.2.2 v)
        (stView initState tid) (contribs sevScore rootName files tid)
      = stepFold (stView initState tid) (contribs sevScore rootName files tid) from rfl] at h
  rw [stepFold_examples, stView_initState] at h
  simp only [List.nil_append] at h
  have h2 := List.mem_of_mem_take h
  rcases List.mem_map.1 h2 with ⟨c, hc, rfl⟩
  rcases List.mem_filterMap.1 hc with ⟨f, hf, hsome⟩
  by_cases hm : tid ∈ get_techniques f.parsed f.raw
  · rw [if_pos hm] at hsome
    cases hsome
    exact ⟨f, hf, rfl⟩
  · rw [if_neg hm] at hsome
    cases hsome

/-- The final per-ID view of the aggregation, from the empty accumulators. -/
theorem stView_aggregate (sevScore : String → Nat) (rootName : String)
    (files : List FileInput) (tid : String) :
    stView (aggregate sevScore rootName files).1 tid
      = stepFold ⟨0, "unknown", 0, []⟩ (contribs sevScore rootName files tid) := by
  rw [show (aggregate sevScore rootName files) =
      files.foldl (processFile sevScore rootName) (initState, 0, 0) from rfl]
  rw [stView_aggLoop sevScore rootName files initState 0 0 tid]
  rfl

/-- `get_techniques` is always strictly ascending (Python string order). -/
theorem pairwise_get_techniques (d : Option YDict) (raw : String) :
    List.Pairwise pyLt (get_techniques d raw) := by
  rcases get_techniques_cases d raw with ⟨dd, v, _, _, _, _, he⟩ | he <;>
    rw [he] <;> exact pairwise_lt_pySortedSet _

/-- Every contribution score lies in the severity map's range. -/
theorem contribs_score_mem (sevScore : String → Nat) (hrange : ∀ s, sevScore s ∈ SCORES)
    (rootName : String) (files : List FileInput) (tid : String) :
    ∀ c ∈ contribs sevScore rootName files tid, c.1 ∈ SCORES := by
  intro c hc
  rcases List.mem_filterMap.1 hc with ⟨f, _, hsome⟩
  by_cases hm : tid ∈ get_techniques f.parsed f.raw
  · rw [if_pos hm] at hsome
    cases hsome
    exact hrange _
  · rw [if_neg hm] at hsome
    cases hsome

/-- The final best score and severity of a technique ID, described
independently of the update loop: the score is the maximum contribution
score, the severity is that of the first contribution attaining it. -/
theorem agg_best_spec (sevScore : String → Nat) (hpos : ∀ s, 0 < sevScore s)
    (rootName : String) (files : List FileInput) (tid : String) :
    (aggregate sevScore rootName files).1.maxScore tid
        = maxScoreOf (contribs sevScore rootName files tid) ∧
    (aggregate sevScore rootName files).1.maxSev tid
        = (((contribs sevScore rootName files tid).find?
              (fun c => c.1 == maxScoreOf (contribs sevScore rootName files tid))).map
            (fun c => c.2.1)).getD "unknown" := by
  have hview : stView (aggregate sevScore rootName files).1 tid
      = stepFold ⟨0, "unknown", 0, []⟩ (contribs sevScore rootName files tid) := by
    rw [show (aggregate sevScore rootName files) =
        files.foldl (processFile sevScore rootName) (initState, 0, 0) from rfl]
    rw [stView_aggLoop sevScore rootName files initState 0 0 tid]
    rfl
  have hpos' : ∀ c ∈ contribs sevScore rootName files tid, 0 < c.1 := by
    intro c hc
    rcases List.mem_filterMap.1 hc with ⟨f, _, hsome⟩
    by_cases hm : tid ∈ get_techniques f.parsed f.raw
    · rw [if_pos hm] at hsome
      cases hsome
      exact hpos _
    · rw [if_neg hm] at hsome
      cases hsome
  constructor
  · have h1 : (aggregate sevScore rootName files).1.maxScore tid
        = (stView (aggregate sevScore rootName files).1 tid).score := rfl
    rw [h1, hview, stepFold_score]
    show max 0 _ = _
    omega
  · have h1 : (aggregate sevScore rootName files).1.maxSev tid
        = (stView (aggregate sevScore rootName files).1 tid).sev := rfl
    rw [h1, hview, stepFold_sev _ hpos']

/-- Any entry of a layer built from either script's aggregation has its
score in the six-score range, in particular positive. -/
theorem entry_score_range (sevScore : String → Nat) (hrange : ∀ s, sevScore s ∈ SCORES)
    (rootName layer_name descr : String) (files : List FileInput) (e : TechEntry)
    (he : e ∈ (build_layer layer_name descr (aggregate sevScore rootName files).1).techniques) :
    e.score ∈ SCORES ∧ 0 < e.score := by
  rcases (mem_techniques_build_layer layer_name descr _ e).1 he with ⟨tid, hk, rfl⟩
  have hpos : ∀ s, 0 < sevScore s := fun s => pos_of_mem_SCORES _ (hrange s)
  have hscore : (entryOf (aggregate sevScore rootName files).1 tid).score
      = (aggregate sevScore rootName files).1.maxScore tid := rfl
  have hbest := (agg_best_spec sevScore hpos rootName files tid).1
  have hne : contribs sevScore rootName files tid ≠ [] := by
    have hk' := (mem_keys_aggLoop sevScore rootName files initState 0 0 tid).1 hk
    rcases hk' with h | h
    · cases h
    · exact h
  obtain ⟨c0, hc0⟩ := List.exists_mem_of_ne_nil _ hne
  have hc0S : c0.1 ∈ SCORES := contribs_score_mem sevScore hrange rootName files tid c0 hc0
  have hc0pos : 0 < c0.1 := pos_of_mem_SCORES _ hc0S
  have hmemS : maxScoreOf (contribs sevScore rootName files tid) ∈ SCORES := by
    rcases maxScoreOf_attained (contribs sevScore rootName files tid) with h0 | ⟨c, hc, hce⟩
    · have := le_maxScoreOf _ c0 hc0
      omega
    · rw [← hce]
      exact contribs_score_mem sevScore hrange rootName files tid c hc
  rw [hscore, hbest]
  exact ⟨hmemS, pos_of_mem_SCORES _ hmemS⟩

/-!
## The claims
-/

/-- C1: the claim says every technique's score is the maximum over
contributing files of the tier-map score of its severity (sev0 → 100,
sev1 → 90, sev2 → 70, sev3 → 40, sev4 → 20, unknown → 50). In
`generate_layers.py` this fails: `SEVERITY_TO_SCORE` has capitalized keys
(`"Sev0"`, ...) while `severity_score` looks the label up lowercased, so no
tier key is ever hit and every file scores the default 50. A single rule
file with `Severity: Sev1` and technique `T1059` — the spec's Scenario 1,
which demands score 90 — is emitted with score 50. -/
theorem C1_generate_layers_tier_map_dead :
    GenL.severity_score "sev0" = 50 ∧
    GenL.severity_score "sev1" = 50 ∧
    NetL.severity_to_score "sev1" = 90 ∧
    (GenL.main "detections" "L" (FSTree.dir "detections" ["rule.yml"] FSForest.nil)
        (fun _ => (some [("Severity", YVal.str "Sev1"), ("MitreTechniques", YVal.str "T1059")],
          ""))).toOption.map
        (fun l => l.techniques.map (fun e => (e.techniqueID, e.score)))
      = some [("T1059", 50)] :=
  ⟨rfl, rfl, rfl, by decide⟩

/-- C2: in restricted mode every candidate file returned by the enumerator
has a first path segment below the root that, lowercased with spaces and
underscores stripped, is in the platform allow-list; and every example
label recorded by the aggregation (hence everything in the output) comes
from one of those candidate files. -/
theorem C2_restricted_platform_allowlist (t : FSTree) :
    (∀ p ∈ NetL.iter_yaml_files t,
      ∃ a q, p = a :: q ∧ NetL.normalizePlatform a ∈ NetL.allowedPlatforms) ∧
    (∀ (rootName : String) (readF : List String → Option YDict × String) (tid lab : String),
      lab ∈ (aggregate NetL.severity_to_score rootName
          ((NetL.iter_yaml_files t).map
            (fun p => FileInput.mk p (readF p).1 (readF p).2))).1.examples tid →
      ∃ p ∈ NetL.iter_yaml_files t, lab = labelOf rootName p) := by
  constructor
  · intro p hp
    have hp' : p ∈ NetL.nlCollect [] t :=
      (List.perm_insertionSort _ _).mem_iff.1 hp
    rcases nlCollect_root t p hp' with ⟨a, q, rfl, _, hal⟩
    exact ⟨a, q, rfl, hal⟩
  · intro rootName readF tid lab hl
    rcases examples_from_files _ _ _ _ _ hl with ⟨f, hf, rfl⟩
    rcases List.mem_map.1 hf with ⟨p, hp, rfl⟩
    exact ⟨p, hp, rfl⟩

/-- C2 witness: on a tree with a `Cloudflare` platform folder, the sole
candidate path starts with a segment normalizing into the allow-list. -/
theorem C2_witness :
    ∃ a q, (["Cloudflare", "ruleA", "a.yml"] : List String) = a :: q ∧
      NetL.normalizePlatform a ∈ NetL.allowedPlatforms :=
  (C2_restricted_platform_allowlist
      (FSTree.dir "detections" ["root.yml"]
        (FSForest.cons (FSTree.dir "Cloudflare" []
          (FSForest.cons (FSTree.dir "ruleA" ["a.yml"] FSForest.nil) FSForest.nil))
          FSForest.nil))).1
    ["Cloudflare", "ruleA", "a.yml"] (by decide)

/-- C3: technique extraction is two-tier. When the parsed mapping is truthy,
holds the recognized technique-list field and normalizing its value yields
at least one ID, the result is exactly the uppercased grammar matches of
that value (deduplicated, strictly sorted); in every other situation the
result is exactly the uppercased grammar matches of the whole raw text. -/
theorem C3_two_tier_extraction (d : Option YDict) (raw : String) :
    List.Pairwise pyLt (get_techniques d raw) ∧
    (∀ dd v, d = some dd → pyTruthy (some dd) = true →
      List.lookup TECHNIQUE_KEY dd = some v → normalize_techniques v ≠ [] →
      ∀ x, x ∈ get_techniques d raw ↔ ∃ m ∈ structMatches v, upperStr m = x) ∧
    ((∀ dd v, d = some dd → pyTruthy (some dd) = true →
        List.lookup TECHNIQUE_KEY dd = some v → normalize_techniques v = []) →
      ∀ x, x ∈ get_techniques d raw ↔ ∃ m ∈ findall raw, upperStr m = x) := by
  refine ⟨pairwise_get_techniques d raw, ?_, ?_⟩
  · rintro dd v rfl ht hl hne x
    have he : get_techniques (some dd) raw = normalize_techniques v := by
      simp only [get_techniques, ht, if_true, hl]
      rw [if_neg (by simpa [List.isEmpty_iff] using hne)]
    rw [he, normalize_techniques, mem_pySortedSet, List.mem_map]
  · intro hall x
    rcases get_techniques_cases d raw with ⟨dd, v, heq, ht, hl, hne, _⟩ | he
    · exact absurd (hall dd v heq ht hl) hne
    · rw [he, mem_pySortedSet, List.mem_map]

/-- C3 witness: a file with no structured mapping and a free-text body
mentioning `T1003` twice (once lowercase) and `T1003.002` once. -/
theorem C3_witness :
    ("T1003" ∈ get_techniques none "body T1003 xx t1003 yy T1003.002" ↔
      ∃ m ∈ findall "body T1003 xx t1003 yy T1003.002", upperStr m = "T1003") ∧
    List.Pairwise pyLt (get_techniques none "body T1003 xx t1003 yy T1003.002") :=
  ⟨(C3_two_tier_extraction none "body T1003 xx t1003 yy T1003.002").2.2
      (fun _ _ h => nomatch h) "T1003",
   (C3_two_tier_extraction none "body T1003 xx t1003 yy T1003.002").1⟩

/-- C4: for every technique ID, the recorded best score is the maximum
contribution score, and the recorded best severity is the severity of the
first contribution (in processing order) attaining that maximum — the
strict-improvement update keeps the earlier-seen label on ties. Stated for
both scripts' severity maps. -/
theorem C4_strict_improvement_first_seen_ties (rootName : String)
    (files : List FileInput) (tid : String) :
    ((aggregate GenL.severity_score rootName files).1.maxScore tid
        = maxScoreOf (contribs GenL.severity_score rootName files tid) ∧
      (aggregate GenL.severity_score rootName files).1.maxSev tid
        = (((contribs GenL.severity_score rootName files tid).find?
              (fun c => c.1 == maxScoreOf (contribs GenL.severity_score rootName files tid))).map
            (fun c => c.2.1)).getD "unknown") ∧
    ((aggregate NetL.severity_to_score rootName files).1.maxScore tid
        = maxScoreOf (contribs NetL.severity_to_score rootName files tid) ∧
      (aggregate NetL.severity_to_score rootName files).1.maxSev tid
        = (((contribs NetL.severity_to_score rootName files tid).find?
              (fun c => c.1 == maxScoreOf (contribs NetL.severity_to_score rootName files tid))).map
            (fun c => c.2.1)).getD "unknown") :=
  ⟨agg_best_spec _ (fun s => pos_of_mem_SCORES _ (genl_severity_score_mem s)) rootName files tid,
   agg_best_spec _ (fun s => pos_of_mem_SCORES _ (netl_severity_to_score_mem s)) rootName files tid⟩

/-- C5: for every technique ID, the recorded example labels are exactly the
labels of the first 5 contributing files in processing order — in
particular never more than 5, and never replaced once the cap is hit. -/
theorem C5_example_cap (sevScore : String → Nat) (rootName : String)
    (files : List FileInput) (tid : String) :
    (aggregate sevScore rootName files).1.examples tid
        = ((contribs sevScore rootName files tid).map (fun c => c.2.2)).take 5 ∧
    ((aggregate sevScore rootName files).1.examples tid).length ≤ 5 := by
  have h1 : (aggregate sevScore rootName files).1.examples tid
      = (stView (aggregate sevScore rootName files).1 tid).examples := rfl
  have heq : (aggregate sevScore rootName files).1.examples tid
      = ((contribs sevScore rootName files tid).map (fun c => c.2.2)).take 5 := by
    rw [h1, stView_aggregate, stepFold_examples]
    rfl
  refine ⟨heq, ?_⟩
  rw [heq]
  calc (((contribs sevScore rootName files tid).map (fun c => c.2.2)).take 5).length
      ≤ 5 := by
        rw [List.length_take]
        exact min_le_left _ _

/-- C6: whenever either script succeeds, the `techniques` array of the
produced artifact is strictly ascending by `techniqueID` (Python string
order), for every input tree and file contents. -/
theorem C6_techniques_strictly_ascending (rootName layer_name : String) (t : FSTree)
    (readF : List String → Option YDict × String) (layer : Layer)
    (h : GenL.main rootName layer_name t readF = Except.ok layer ∨
      NetL.main rootName layer_name t readF = Except.ok layer) :
    List.Pairwise (fun a b : TechEntry => pyLt a.techniqueID b.techniqueID)
      layer.techniques := by
  rcases h with h | h
  · unfold GenL.main mainCore at h
    split at h
    · cases h
    · injection h with h2
      subst h2
      exact pairwise_techniques_build_layer _ _ _ (nodup_keys_aggregate _ _ _)
  · unfold NetL.main mainCore at h
    split at h
    · cases h
    · injection h with h2
      subst h2
      exact pairwise_techniques_build_layer _ _ _ (nodup_keys_aggregate _ _ _)

/-- C6 witness: a concrete successful run of `generate_layers.py`. -/
theorem C6_witness :
    List.Pairwise (fun a b : TechEntry => pyLt a.techniqueID b.techniqueID)
      (build_layer "L"
        "Auto-generated from detection YAML files in repo (technique + severity)."
        (aggregate GenL.severity_score "d"
          ((GenL.iter_yaml_files (FSTree.dir "d" ["a.yml"] FSForest.nil)).map
            (fun p => FileInput.mk p ((fun _ => ((none : Option YDict), "T1059 T1003")) p).1
              ((fun _ => ((none : Option YDict), "T1059 T1003")) p).2))).1).techniques :=
  C6_techniques_strictly_ascending "d" "L" (FSTree.dir "d" ["a.yml"] FSForest.nil)
    (fun _ => (none, "T1059 T1003")) _ (Or.inl rfl)

/-- C7: if enumeration yields no candidate files, both scripts terminate
immediately with their fatal no-input error and never build a layer. -/
theorem C7_no_input_fatal (rootName layer_name : String) (t : FSTree)
    (readF : List String → Option YDict × String) :
    (GenL.iter_yaml_files t = [] →
      GenL.main rootName layer_name t readF
        = Except.error ("No .yaml/.yml files found under: " ++ rootName)) ∧
    (NetL.iter_yaml_files t = [] →
      NetL.main rootName layer_name t readF
        = Except.error "No Network detection YAML files found.") := by
  constructor
  · intro h
    unfold GenL.main mainCore
    rw [h]
    rfl
  · intro h
    unfold NetL.main mainCore
    rw [h]
    rfl

/-- C7 witness: a tree with no rule files at all, and a tree whose only
rule file sits outside every platform folder (restricted mode). -/
theorem C7_witness :
    GenL.main "d" "L" (FSTree.dir "d" [] FSForest.nil) (fun _ => (none, ""))
        = Except.error ("No .yaml/.yml files found under: " ++ "d") ∧
    NetL.main "d" "L" (FSTree.dir "d" ["a.yml"] FSForest.nil) (fun _ => (none, ""))
        = Except.error "No Network detection YAML files found." :=
  ⟨(C7_no_input_fatal "d" "L" (FSTree.dir "d" [] FSForest.nil) (fun _ => (none, ""))).1 rfl,
   (C7_no_input_fatal "d" "L" (FSTree.dir "d" ["a.yml"] FSForest.nil) (fun _ => (none, ""))).2 rfl⟩

/-- C8: when structured parsing failed or produced a non-mapping
(`read_yaml` returns no mapping), extraction still succeeds: severity is
`"unknown"`, techniques are exactly the uppercased raw-text matches, and
the file is skipped (only the skipped counter moves) iff that scan is
empty, otherwise it is parsed and contributes to every technique it
mentions. -/
theorem C8_malformed_input_degrades (sevScore : String → Nat) (rootName : String)
    (st : AggState) (pn kn : Nat) (path : List String) (raw : String) :
    get_severity none = "unknown" ∧
    (∀ x, x ∈ get_techniques none raw ↔ ∃ m ∈ findall raw, upperStr m = x) ∧
    (get_techniques none raw = [] →
      processFile sevScore rootName (st, pn, kn) ⟨path, none, raw⟩ = (st, pn, kn + 1)) ∧
    (get_techniques none raw ≠ [] →
      (processFile sevScore rootName (st, pn, kn) ⟨path, none, raw⟩).2.1 = pn + 1 ∧
      (processFile sevScore rootName (st, pn, kn) ⟨path, none, raw⟩).2.2 = kn ∧
      ∀ tid ∈ get_techniques none raw,
        (processFile sevScore rootName (st, pn, kn) ⟨path, none, raw⟩).1.counts tid
          = st.counts tid + 1) := by
  refine ⟨rfl, ?_, ?_, ?_⟩
  · intro x
    show x ∈ pySortedSet ((findall raw).map upperStr) ↔ _
    rw [mem_pySortedSet, List.mem_map]
  · intro h
    exact processFile_skip _ _ _ _ _ _ (by rw [show (FileInput.mk path none raw).raw = raw from rfl, h]; rfl)
  · intro h
    have hemp : ¬(get_techniques (FileInput.mk path none raw).parsed
        (FileInput.mk path none raw).raw).isEmpty = true := by
      simpa [List.isEmpty_iff] using h
    rw [processFile_contrib _ _ _ _ _ _ hemp]
    refine ⟨rfl, rfl, ?_⟩
    intro tid hm
    have hfold := stView_foldl_mem (sevScore (get_severity none)) (get_severity none)
      (labelOf rootName path) (get_techniques none raw) st
      (nodup_get_techniques none raw) hm
    have hc : ((get_techniques none raw).foldl
        (updateTid (sevScore (get_severity none)) (get_severity none)
          (labelOf rootName path)) st).counts tid
        = (stView ((get_techniques none raw).foldl
            (updateTid (sevScore (get_severity none)) (get_severity none)
              (labelOf rootName path)) st) tid).count := rfl
    rw [hc, hfold]
    rfl

/-- C8 witness: a file that failed parsing with a body mentioning one
technique contributes; one with no technique text is skipped. -/
theorem C8_witness :
    processFile NetL.severity_to_score "d" (initState, 0, 0) ⟨["a.yml"], none, "no ids"⟩
        = (initState, 0, 1) ∧
    (processFile NetL.severity_to_score "d" (initState, 0, 0) ⟨["a.yml"], none, "T1059"⟩).1.counts "T1059"
        = initState.counts "T1059" + 1 :=
  ⟨(C8_malformed_input_degrades NetL.severity_to_score "d" initState 0 0 ["a.yml"] "no ids").2.2.1
      (by decide),
   (((C8_malformed_input_degrades NetL.severity_to_score "d" initState 0 0 ["a.yml"] "T1059").2.2.2
      (by decide)).2.2 "T1059" (by decide))⟩

/-- C9: every emitted technique entry, in either script, has a score among
20, 40, 50, 70, 90, 100 — in particular strictly positive: the zero
initialization of the per-ID best score never reaches the output. -/
theorem C9_scores_positive_in_range (rootName layer_name descr : String)
    (files : List FileInput) (e : TechEntry) :
    (e ∈ (build_layer layer_name descr
        (aggregate GenL.severity_score rootName files).1).techniques →
      e.score ∈ SCORES ∧ 0 < e.score) ∧
    (e ∈ (build_layer layer_name descr
        (aggregate NetL.severity_to_score rootName files).1).techniques →
      e.score ∈ SCORES ∧ 0 < e.score) :=
  ⟨entry_score_range _ genl_severity_score_mem rootName layer_name descr files e,
   entry_score_range _ netl_severity_to_score_mem rootName layer_name descr files e⟩

/-- C9 witness: the sole entry of a concrete network-layer run. -/
theorem C9_witness :
    (⟨"T1059", 100, "detections=1; max_sev=sev0; examples=r/a.yml",
        [("detections_count", "1"), ("max_severity", "sev0")]⟩ : TechEntry).score ∈ SCORES ∧
      0 < (⟨"T1059", 100, "detections=1; max_sev=sev0; examples=r/a.yml",
        [("detections_count", "1"), ("max_severity", "sev0")]⟩ : TechEntry).score :=
  (C9_scores_positive_in_range "detections" "L" "D"
      [FileInput.mk ["Cloudflare", "r", "a.yml"]
        (some [("Severity", YVal.str "Sev0"), ("MitreTechniques", YVal.str "T1059")]) ""]
      ⟨"T1059", 100, "detections=1; max_sev=sev0; examples=r/a.yml",
        [("detections_count", "1"), ("max_severity", "sev0")]⟩).2 (by decide)

/-- C10: a rule file lying directly in the root directory is never a
candidate in restricted mode: the root's relative path is `"."`, whose
normalization is not in the allow-list, so no single-component path is
ever enumerated. -/
theorem C10_root_files_never_candidates :
    NetL.normalizePlatform "." ∉ NetL.allowedPlatforms ∧
    ∀ (t : FSTree) (fn : String), ([fn] : List String) ∉ NetL.iter_yaml_files t := by
  refine ⟨by decide, ?_⟩
  intro t fn h
  have h' : ([fn] : List String) ∈ NetL.nlCollect [] t :=
    (List.perm_insertionSort _ _).mem_iff.1 h
  rcases nlCollect_root t [fn] h' with ⟨a, q, heq, hq, _⟩
  cases heq
  exact hq rfl

/-- C10 witness: the root-level rule file of a concrete tree is not in the
enumeration even though the tree also has platform files. -/
theorem C10_witness :
    (["root.yml"] : List String) ∉ NetL.iter_yaml_files
      (FSTree.dir "detections" ["root.yml"]
        (FSForest.cons (FSTree.dir "Cloudflare" []
          (FSForest.cons (FSTree.dir "ruleA" ["a.yml"] FSForest.nil) FSForest.nil))
          FSForest.nil)) :=
  C10_root_files_never_candidates.2
    (FSTree.dir "detections" ["root.yml"]
      (FSForest.cons (FSTree.dir "Cloudflare" []
        (FSForest.cons (FSTree.dir "ruleA" ["a.yml"] FSForest.nil) FSForest.nil))
        FSForest.nil)) "root.yml"
